import Mathlib

/-!
Verification of the `go_wget` downloader (src/main.go) against its
natural-language specification.

The Go program is shallowly embedded below.  Pure computations
(`calculateConcurrency`, the chunk planning loop of `downloadFile`, the
header-string parsing loop shared by `downloadChunk` and
`sequentialDownload`, the response inspection of `checkRangeSupport`)
become Lean functions on `Int` (Go `int64`: all values that occur here are
far below `2^63`, so plain `Int` arithmetic is exact) and `List Char`
(Go `string`).  Effectful code is embedded as a function from an explicit
environment -- the responses the network delivers, the success of each
filesystem call, and the per-goroutine outcomes in the order the
coordinator observes them -- to the list of filesystem actions performed
and the returned error.  The `errChan`/`cancel` machinery of
`downloadFile` is embedded as a fold of `fetchStep` (a one-slot try-send
plus a cancellation flag) over the observation-ordered outcome list; the
`wg.Wait()` barrier is the fact that the fold consumes the whole list
before the slot is read.
-/

namespace GoWget

/-- Mirrors `type Chunk struct { Start int64; End int64 }` (inclusive bounds). -/
structure Chunk where
  Start : Int
  End : Int
  deriving DecidableEq, Repr

/-- Go `int64` division truncates toward zero; `Int.tdiv` is that operation. -/
def goDiv (a b : Int) : Int :=
  Int.tdiv a b

/-- Mirrors `calculateConcurrency`: `if fileSize > 1024*1024*1024 { return 8 }; return 4`. -/
def calculateConcurrency (fileSize : Int) : Nat :=
  if 1024 * 1024 * 1024 < fileSize then 8 else 4

/-- Mirrors the chunk-building loop of `downloadFile`:
`chunks[i].Start = i*chunkSize; chunks[i].End = chunks[i].Start + chunkSize - 1`. -/
def mkChunks (concurrency : Nat) (chunkSize : Int) : List Chunk :=
  (List.range concurrency).map fun (i : Nat) =>
    { Start := (i : Int) * chunkSize, End := (i : Int) * chunkSize + chunkSize - 1 }

/-- Mirrors `chunks[concurrency-1].End = fileSize - 1`: patch the last element's `End`. -/
def setLastEnd (chunks : List Chunk) (e : Int) : List Chunk :=
  match chunks with
  | [] => []
  | [c] => [{ c with End := e }]
  | c :: c2 :: rest => c :: setLastEnd (c2 :: rest) e

/-- The chunk plan computed by `downloadFile` for a given `fileSize`:
`concurrency := calculateConcurrency(fileSize)`,
`chunkSize := fileSize / int64(concurrency)` (Go truncated division),
the uniform chunks, with the last `End` forced to `fileSize - 1`. -/
def planChunks (fileSize : Int) : List Chunk :=
  let concurrency := calculateConcurrency fileSize
  let chunkSize := goDiv fileSize (concurrency : Int)
  setLastEnd (mkChunks concurrency chunkSize) (fileSize - 1)

/-! ### Error taxonomy

Each constructor stands for one `fmt.Errorf`/returned error of the Go
source; constructors carry exactly the data interpolated into the Go
message, so "the error names the offending status code" is expressed by
the code being an argument of the constructor. -/

/-- Errors returned by the embedded functions (one constructor per Go error site). -/
inductive DLError where
  /-- Error `无效URL: %v` from `url.ParseRequestURI` failing. -/
  | invalidURL
  /-- Error `HEAD请求失败: %v`: the probe request could not be sent. -/
  | probeTransport (msg : List Char)
  /-- Error `服务器返回状态码: %d` in `checkRangeSupport`. -/
  | probeStatus (code : Nat)
  /-- Error `创建临时文件失败: %v`: `os.Create(tmpFile)` failed. -/
  | tmpCreateError
  /-- Error `无效的分块响应状态码: %d` in `downloadChunk`. -/
  | badChunkStatus (code : Nat)
  /-- A read error (other than `io.EOF`) in `downloadChunk`'s loop. -/
  | chunkReadError (msg : List Char)
  /-- Error `重命名文件失败: %v`: `os.Rename(tmpFile, filename)` failed. -/
  | commitError
  /-- Error `服务器返回状态码: %d` in `sequentialDownload`. -/
  | badSeqStatus (code : Nat)
  /-- Failure of `os.Create(filename)` in `sequentialDownload`. -/
  | createFinalError
  /-- A read error (other than `io.EOF`) in `sequentialDownload`'s loop. -/
  | seqReadError (msg : List Char)
  deriving DecidableEq, Repr

/-! ### Capability probe (`checkRangeSupport`) -/

/-- Abstraction of the `*http.Response` that `checkRangeSupport` inspects.
`acceptRanges` is the value of the `Accept-Ranges` header when present
(`resp.Header.Get` returns the empty string when absent).
`contentLengthHeader` is the declared `Content-Length` when present.  Go's
`net/http` sets `resp.ContentLength` for a HEAD response by
`parseContentLength`, which yields `-1` when the header is absent
("The value -1 indicates that the length is unknown"); `contentLength`
below reproduces that. -/
structure HeadResponse where
  statusCode : Nat
  acceptRanges : Option (List Char)
  contentLengthHeader : Option Nat
  deriving DecidableEq, Repr

/-- Mirrors `resp.Header.Get`: the header's value, or `""` when absent. -/
def headerGet (v : Option (List Char)) : List Char :=
  v.getD []

/-- Go `resp.ContentLength` for a HEAD response: the declared value, `-1` when absent. -/
def contentLength (r : HeadResponse) : Int :=
  match r.contentLengthHeader with
  | none => -1
  | some n => (n : Int)

/-- Mirrors `checkRangeSupport`: a transport failure becomes `HEAD请求失败`;
a non-200 status becomes `服务器返回状态码: %d`; otherwise it returns
`(resp.Header.Get("Accept-Ranges") == "bytes", resp.ContentLength)`. -/
def checkRangeSupport (resp : Except (List Char) HeadResponse) : Except DLError (Bool × Int) :=
  match resp with
  | .error m => .error (.probeTransport m)
  | .ok r =>
    if r.statusCode ≠ 200 then .error (.probeStatus r.statusCode)
    else .ok (headerGet r.acceptRanges = "bytes".toList, contentLength r)

/-! ### Header-string parsing

Both `downloadChunk` and `sequentialDownload` run the same loop:
`strings.Split(headers, ",")`, `strings.SplitN(pair, ":", 2)`, keep only
pairs with both parts, `TrimSpace` each part, `req.Header.Add(key, value)`.
Go strings are embedded as `List Char`; request headers as the ordered
list of `(key, value)` pairs in the order `Add` appends them (Go's
`Header.Add` appends, never overwrites, so duplicates coexist; the keys
occurring in the claims are already in canonical MIME form, so key
canonicalisation is the identity here). -/

/-- Mirrors `strings.Split(s, sep)` for a one-character separator
(`strings.Split("", ...)` in Go returns `[""]`, matching the `[]` case). -/
def splitOnChar (sep : Char) (s : List Char) : List (List Char) :=
  match s with
  | [] => [[]]
  | ch :: rest =>
    if ch = sep then [] :: splitOnChar sep rest
    else
      match splitOnChar sep rest with
      | [] => [[ch]]
      | g :: gs => (ch :: g) :: gs

/-- Mirrors `strings.SplitN(pair, ":", 2)`: split at the first `':'`;
`none` when there is no colon (Go then returns a 1-element slice and the
`len(parts) == 2` guard skips the pair). -/
def splitFirstColon (s : List Char) : Option (List Char × List Char) :=
  match s with
  | [] => none
  | ch :: rest =>
    if ch = ':' then some ([], rest)
    else
      match splitFirstColon rest with
      | none => none
      | some (a, b) => some (ch :: a, b)

/-- ASCII whitespace test (the whitespace actually reachable in header strings;
`strings.TrimSpace` also trims other Unicode space, irrelevant here). -/
def isSpaceChar (c : Char) : Bool :=
  c = ' ' || c = '\t' || c = '\n' || c = '\r'

/-- Drop leading whitespace. -/
def trimLeft : List Char → List Char
  | [] => []
  | c :: rest => if isSpaceChar c then trimLeft rest else c :: rest

/-- Mirrors `strings.TrimSpace`: trim both ends. -/
def trimSpace (s : List Char) : List Char :=
  (trimLeft (trimLeft s).reverse).reverse

/-- The header-adding loop shared by `downloadChunk` and `sequentialDownload`:
the guarded parse of the `-h` header string into the ordered list of pairs
passed to `req.Header.Add`. -/
def parseHeaderList (hs : List Char) : List (List Char × List Char) :=
  if hs = [] then []
  else
    (splitOnChar ',' hs).filterMap fun pair =>
      match splitFirstColon pair with
      | none => none
      | some (k, v) => some (trimSpace k, trimSpace v)

/-- The `Range` header value set by `downloadChunk`:
`fmt.Sprintf("bytes=%d-%d", chunk.Start, chunk.End)`. -/
def rangeHeaderValue (c : Chunk) : List Char :=
  ("bytes=" ++ toString c.Start ++ "-" ++ toString c.End).toList

/-- Headers of a chunk request: `req.Header.Set("Range", ...)` on a fresh
request, then the custom headers added in order. -/
def chunkRequestHeaders (c : Chunk) (hs : List Char) : List (List Char × List Char) :=
  ("Range".toList, rangeHeaderValue c) :: parseHeaderList hs

/-- Headers of the metadata probe: `checkRangeSupport` builds
`http.NewRequest("HEAD", url, nil)` and adds nothing -- the custom header
string is not even passed to it. -/
def probeRequestHeaders : List (List Char × List Char) :=
  []

/-- Headers of the sequential GET: just the custom headers added in order. -/
def sequentialRequestHeaders (hs : List Char) : List (List Char × List Char) :=
  parseHeaderList hs

/-! ### Chunk fetch (`downloadChunk`) -/

/-- One `WriteAt` performed by a chunk fetcher: `data` written at absolute
file offset `offset`. -/
structure WriteOp where
  offset : Int
  data : List UInt8
  deriving DecidableEq, Repr

/-- Abstraction of a chunk request's outcome on the wire: the status code
and the successive successful `resp.Body.Read` increments, followed by
either clean EOF (`readErr = none`) or a read error. -/
structure ChunkResponse where
  statusCode : Nat
  body : List (List UInt8)
  readErr : Option (List Char)
  deriving DecidableEq, Repr

/-- Mirrors `downloadChunk`'s read loop.  State: `current` starts at
`chunk.Start` and advances by `n` after each write; `downloadedSoFar` is
the shared counter, bumped by `atomic.AddInt64(downloaded, int64(n))`
after each successful write.  Each trace entry is the `WriteAt` performed
together with the counter value just after its atomic add; increments with
`n = 0` are skipped by the `if n > 0` guard. -/
def chunkLoop (current downloadedSoFar : Int) (incs : List (List UInt8)) :
    List (WriteOp × Int) :=
  match incs with
  | [] => []
  | d :: rest =>
    if 0 < d.length then
      ({ offset := current, data := d }, downloadedSoFar + (d.length : Int)) ::
        chunkLoop (current + (d.length : Int)) (downloadedSoFar + (d.length : Int)) rest
    else
      chunkLoop current downloadedSoFar rest

/-- Mirrors `downloadChunk` (file writes assumed to succeed; the transport
either yielded `r` or failed upstream).  A non-206 status returns
`无效的分块响应状态码: %d` before the loop, so the trace is empty; otherwise
the loop runs over the whole body and a trailing read error (non-EOF) is
returned after the writes already performed. -/
def downloadChunk (c : Chunk) (downloaded0 : Int) (r : ChunkResponse) :
    List (WriteOp × Int) × Option DLError :=
  if r.statusCode ≠ 206 then ([], some (.badChunkStatus r.statusCode))
  else
    (chunkLoop c.Start downloaded0 r.body,
     match r.readErr with
     | none => none
     | some m => some (.chunkReadError m))

/-- The list of `WriteAt` calls a `downloadChunk` run performs. -/
def writesOf (res : List (WriteOp × Int) × Option DLError) : List WriteOp :=
  res.1.map Prod.fst

/-- Total length (as `Int`) of a list of body increments. -/
def totalLen (incs : List (List UInt8)) : Int :=
  incs.foldr (fun d a => (d.length : Int) + a) 0

/-- Total length (as `Int`) of the data of a list of writes. -/
def sumLens (ws : List WriteOp) : Int :=
  ws.foldr (fun w a => (w.data.length : Int) + a) 0

/-! ### Coordinator (`downloadFile`) -/

/-- Filesystem actions the coordinator and the sequential path perform
(chunk `WriteAt`s into the temp file are modelled by `downloadChunk`). -/
inductive FsAction where
  /-- Success of `os.Create(filename + ".tmp")`. -/
  | createTmp
  /-- the deferred `os.Remove(tmpFile)` call. -/
  | removeTmp
  /-- Success of `os.Rename(tmpFile, filename)`. -/
  | renameTmp
  /-- Success of `os.Create(filename)` in the sequential path. -/
  | createFinal
  /-- one `file.Write(buf[:n])` in the sequential path. -/
  | writeFinal (data : List UInt8)
  deriving DecidableEq, Repr

/-- Abstraction of the outcome of the sequential GET on the wire
(same shape as `ChunkResponse`). -/
structure GetResponse where
  statusCode : Nat
  body : List (List UInt8)
  readErr : Option (List Char)
  deriving DecidableEq, Repr

/-- The `file.Write` calls of `sequentialDownload`'s loop (the `if n > 0` guard
skips empty increments). -/
def seqWrites (body : List (List UInt8)) : List FsAction :=
  body.filterMap fun d => if 0 < d.length then some (.writeFinal d) else none

/-- Mirrors `sequentialDownload`: a non-200 status returns
`服务器返回状态码: %d` before `os.Create(filename)`; then the file is
created (failure returns the create error) and the body is streamed with
plain `Write` (file writes assumed to succeed); a trailing non-EOF read
error is returned after the writes already performed. -/
def sequentialDownload (createOk : Bool) (r : GetResponse) :
    List FsAction × Option DLError :=
  if r.statusCode ≠ 200 then ([], some (.badSeqStatus r.statusCode))
  else if createOk = false then ([], some .createFinalError)
  else
    (.createFinal :: seqWrites r.body,
     match r.readErr with
     | none => none
     | some m => some (.seqReadError m))

/-- The single-slot `errChan` (capacity-1 channel written through
`select { case errChan <- ...: default: }`) plus the `cancel()` flag. -/
structure FetchState where
  slot : Option DLError
  cancelled : Bool
  deriving DecidableEq, Repr

/-- What one fetcher goroutine's completion does to the shared state:
a success touches nothing; a failure try-sends its error (kept only if the
slot is empty, otherwise silently dropped -- the `default:` branch) and
always calls `cancel()`. -/
def fetchStep (st : FetchState) (o : Option DLError) : FetchState :=
  match o with
  | none => st
  | some e =>
    { slot :=
        match st.slot with
        | none => some e
        | some e0 => some e0
      cancelled := true }

/-- The fetch phase: fold the per-goroutine outcomes, in the order the
coordinator observes them, over the empty state.  That the fold consumes
the whole list before `slot` is read is the `wg.Wait()` barrier. -/
def runFetchers (outcomes : List (Option DLError)) : FetchState :=
  outcomes.foldl fetchStep { slot := none, cancelled := false }

/-- Environment of one `downloadFile` run: everything the outside world
decides.  `chunkOutcomes` are the per-goroutine results (each the error of
`downloadChunk` on that chunk's response, wrapped as `分块%d错误: %v`), in
observation order, which concurrency leaves nondeterministic. -/
structure DownloadEnv where
  urlValid : Bool
  headResp : Except (List Char) HeadResponse
  getResp : GetResponse
  createFinalOk : Bool
  createTmpOk : Bool
  chunkOutcomes : List (Option DLError)
  renameOk : Bool

/-- Mirrors `downloadFile`: parse the URL; probe; on `!supportRange` take
the sequential path (the file size is not consulted by this branch);
otherwise create `<output>.tmp` (failure returns `创建临时文件失败` with
nothing created), launch the fetchers, wait for all of them, and read the
error slot.  The deferred `os.Remove(tmpFile)` runs on every return after
a successful create -- also after a successful rename, where it is a
silently-ignored no-op -- so `removeTmp` appears on all three paths.
The chunk plan `planChunks fileSize` determines the fetchers' requests and
is modelled separately. -/
def downloadFile (env : DownloadEnv) : List FsAction × Option DLError :=
  if env.urlValid = false then ([], some .invalidURL)
  else
    match checkRangeSupport env.headResp with
    | .error e => ([], some e)
    | .ok sr =>
      if sr.1 = false then sequentialDownload env.createFinalOk env.getResp
      else if env.createTmpOk = false then ([], some .tmpCreateError)
      else
        match (runFetchers env.chunkOutcomes).slot with
        | some e => ([.createTmp, .removeTmp], some e)
        | none =>
          if env.renameOk then ([.createTmp, .renameTmp, .removeTmp], none)
          else ([.createTmp, .removeTmp], some .commitError)

/-! ## Claims about the capability probe -/

/-- C3 (counterexample): the claim says a server that omits the content
length yields `totalSize = 0`.  On the code (which returns
`resp.ContentLength`, and Go's `net/http` sets it to `-1` for a HEAD
response without a `Content-Length` header), a 200 response with
`Accept-Ranges: bytes` and no content length yields `totalSize = -1`,
not `0`. -/
theorem C3_counterexample :
    checkRangeSupport (.ok { statusCode := 200, acceptRanges := some "bytes".toList,
                             contentLengthHeader := none }) = .ok (true, -1) ∧
    (-1 : Int) ≠ 0 :=
  ⟨rfl, by decide⟩

/-- C3 (amended): for every probe response with status 200,
`checkRangeSupport` returns `supportsRange = true` iff the `Accept-Ranges`
header equals exactly `bytes` (absence or any other value gives `false`),
and returns `totalSize` equal to the response's declared content length,
with `totalSize = -1` (Go's unknown-length marker) when the server omits
the content length. -/
theorem C3_probe (r : HeadResponse) (h : r.statusCode = 200) :
    ∃ (supportsRange : Bool) (totalSize : Int),
      checkRangeSupport (.ok r) = .ok (supportsRange, totalSize) ∧
      (supportsRange = true ↔ r.acceptRanges = some "bytes".toList) ∧
      (∀ n : Nat, r.contentLengthHeader = some n → totalSize = (n : Int)) ∧
      (r.contentLengthHeader = none → totalSize = -1) := by
  refine ⟨decide (headerGet r.acceptRanges = "bytes".toList), contentLength r, ?_, ?_, ?_, ?_⟩
  · simp [checkRangeSupport, h]
  · rw [decide_eq_true_iff]
    cases hra : r.acceptRanges with
    | none => simp [headerGet]
    | some v => simp [headerGet]
  · intro n hn
    unfold contentLength
    rw [hn]
  · intro hn
    unfold contentLength
    rw [hn]

/-- C3 (witness): the amended probe contract at a concrete 200 response
carrying `Accept-Ranges: bytes` and `Content-Length: 100`. -/
theorem C3_probe_witness :
    ({ statusCode := 200, acceptRanges := some "bytes".toList,
       contentLengthHeader := some 100 } : HeadResponse).statusCode = 200 ∧
    ∃ (supportsRange : Bool) (totalSize : Int),
      checkRangeSupport (.ok { statusCode := 200, acceptRanges := some "bytes".toList,
                               contentLengthHeader := some 100 })
        = .ok (supportsRange, totalSize) ∧
      (supportsRange = true ↔
        ({ statusCode := 200, acceptRanges := some "bytes".toList,
           contentLengthHeader := some 100 } : HeadResponse).acceptRanges
          = some "bytes".toList) ∧
      (∀ n : Nat,
        ({ statusCode := 200, acceptRanges := some "bytes".toList,
           contentLengthHeader := some 100 } : HeadResponse).contentLengthHeader = some n →
          totalSize = (n : Int)) ∧
      (({ statusCode := 200, acceptRanges := some "bytes".toList,
          contentLengthHeader := some 100 } : HeadResponse).contentLengthHeader = none →
        totalSize = -1) :=
  ⟨rfl, C3_probe _ rfl⟩

/-! ## Claims about request headers -/

/-- C4 (counterexample): the claim says the metadata probe also carries the
custom headers.  On the code, `checkRangeSupport` builds its HEAD request
without ever seeing the header string: the probe request carries no custom
headers at all. -/
theorem C4_counterexample :
    probeRequestHeaders = [] ∧
    ("User-Agent".toList, "custom".toList) ∉ probeRequestHeaders :=
  ⟨rfl, by simp [probeRequestHeaders]⟩

/-- C4 (amended): for the header string `User-Agent:custom,X-Test:1`, every
chunk request and the sequential request carry both headers with exact
key/value pairs `User-Agent: custom` and `X-Test: 1`, and duplicate keys
in the header string are added as additional values, not overwritten; the
metadata probe, however, carries no custom headers. -/
theorem C4_headers :
    (∀ c : Chunk,
      ("User-Agent".toList, "custom".toList)
          ∈ chunkRequestHeaders c "User-Agent:custom,X-Test:1".toList ∧
      ("X-Test".toList, "1".toList)
          ∈ chunkRequestHeaders c "User-Agent:custom,X-Test:1".toList) ∧
    (("User-Agent".toList, "custom".toList)
        ∈ sequentialRequestHeaders "User-Agent:custom,X-Test:1".toList ∧
     ("X-Test".toList, "1".toList)
        ∈ sequentialRequestHeaders "User-Agent:custom,X-Test:1".toList) ∧
    parseHeaderList "K:a,K:b".toList = [("K".toList, "a".toList), ("K".toList, "b".toList)] ∧
    probeRequestHeaders = [] := by
  have hp : parseHeaderList "User-Agent:custom,X-Test:1".toList
      = [("User-Agent".toList, "custom".toList), ("X-Test".toList, "1".toList)] := by decide
  refine ⟨?_, ?_, by decide, rfl⟩
  · intro c
    constructor
    · exact List.mem_cons_of_mem _ (by rw [hp]; simp)
    · exact List.mem_cons_of_mem _ (by rw [hp]; simp)
  · constructor
    · unfold sequentialRequestHeaders
      rw [hp]
      simp
    · unfold sequentialRequestHeaders
      rw [hp]
      simp

/-! ## Claims about the chunk fetcher's status check -/

/-- C5: `downloadChunk` succeeds only on status 206; any other status makes
it return the `badChunkStatus` error carrying the offending status code,
with an empty write trace (no bytes written to the output file). -/
theorem C5_bad_status (c : Chunk) (d0 : Int) (r : ChunkResponse) (h : r.statusCode ≠ 206) :
    downloadChunk c d0 r = ([], some (.badChunkStatus r.statusCode)) := by
  unfold downloadChunk
  simp [h]

/-- C5 (witness): a 200 reply to a chunk request yields the bad-status error
naming 200 and performs no write. -/
theorem C5_bad_status_witness :
    ({ statusCode := 200, body := [[1]], readErr := none } : ChunkResponse).statusCode ≠ 206 ∧
    downloadChunk { Start := 0, End := 9 } 0
        { statusCode := 200, body := [[1]], readErr := none }
      = ([], some (.badChunkStatus 200)) :=
  ⟨by decide, C5_bad_status { Start := 0, End := 9 } 0 _ (by decide)⟩

/-! ## Claims about the sequential path -/

/-- C10: in the sequential path, a status other than 200 makes
`sequentialDownload` return the bad-status error before `os.Create`, so
the action list is empty and in particular contains no creation of the
output file at the final path. -/
theorem C10_seq_no_create (createOk : Bool) (r : GetResponse) (h : r.statusCode ≠ 200) :
    sequentialDownload createOk r = ([], some (.badSeqStatus r.statusCode)) ∧
    FsAction.createFinal ∉ (sequentialDownload createOk r).1 := by
  have he : sequentialDownload createOk r = ([], some (.badSeqStatus r.statusCode)) := by
    unfold sequentialDownload
    simp [h]
  refine ⟨he, ?_⟩
  rw [he]
  simp

/-- C10 (witness): a 404 reply makes the sequential path fail with the
bad-status error and perform no filesystem action. -/
theorem C10_seq_no_create_witness :
    ({ statusCode := 404, body := [], readErr := none } : GetResponse).statusCode ≠ 200 ∧
    (sequentialDownload true { statusCode := 404, body := [], readErr := none }
        = ([], some (.badSeqStatus 404)) ∧
     FsAction.createFinal
        ∉ (sequentialDownload true { statusCode := 404, body := [], readErr := none }).1) :=
  ⟨by decide, C10_seq_no_create true _ (by decide)⟩

/-! ## Claim C2: the sequential-vs-chunked branch -/

/-- The sequential path never creates the temporary artifact: helper for C2. -/
theorem sequentialDownload_no_tmp (createOk : Bool) (r : GetResponse) :
    FsAction.createTmp ∉ (sequentialDownload createOk r).1 := by
  unfold sequentialDownload
  split
  · simp
  · split
    · simp
    · intro hmem
      simp only [List.mem_cons] at hmem
      rcases hmem with h1 | h2
      · exact absurd h1 (by decide)
      · simp only [seqWrites, List.mem_filterMap] at h2
        rcases h2 with ⟨d, _, hd⟩
        split at hd <;> simp_all

/-- C2 (code bug): the claim -- and the spec's branch contract -- require
the sequential path (and no `.tmp` artifact) whenever `totalSize = 0`,
but `downloadFile` branches on `supportsRange` alone.  With a 200 probe
reply carrying `Accept-Ranges: bytes` and `Content-Length: 0`, the code
enters the chunked machinery and creates `<output>.tmp` (while the
sequential path can never create it), and the plan it builds for size 0
is four degenerate chunks `[0, -1]`. -/
theorem C2_code_bug :
    (∀ (createOk : Bool) (r : GetResponse),
      FsAction.createTmp ∉ (sequentialDownload createOk r).1) ∧
    FsAction.createTmp ∈
      (downloadFile
        { urlValid := true,
          headResp := .ok { statusCode := 200, acceptRanges := some "bytes".toList,
                            contentLengthHeader := some 0 },
          getResp := { statusCode := 200, body := [], readErr := none },
          createFinalOk := true, createTmpOk := true,
          chunkOutcomes := [none, none, none, none], renameOk := true }).1 ∧
    planChunks 0 = [{ Start := 0, End := -1 }, { Start := 0, End := -1 },
                    { Start := 0, End := -1 }, { Start := 0, End := -1 }] := by
  refine ⟨sequentialDownload_no_tmp, by decide, by decide⟩

/-! ## The error channel: first failure wins, later failures are dropped -/

/-- Folding fetcher outcomes leaves the slot at its prior value when it was
already occupied, and otherwise at the first error among the outcomes. -/
theorem foldl_fetchStep_slot (l : List (Option DLError)) (st : FetchState) :
    (l.foldl fetchStep st).slot =
      (match st.slot with
       | some e => some e
       | none => (l.filterMap id).head?) := by
  induction l generalizing st with
  | nil => cases h : st.slot <;> simp [h]
  | cons o rest ih =>
    cases o with
    | none =>
      rw [List.foldl_cons]
      have hstep : fetchStep st none = st := rfl
      rw [hstep, ih]
      cases h : st.slot <;> simp [h, List.filterMap_cons]
    | some e =>
      rw [List.foldl_cons, ih]
      cases h : st.slot <;> simp [fetchStep, h, List.filterMap_cons]

/-- Once `cancel()` has fired, no later outcome unsets it. -/
theorem foldl_fetchStep_cancelled_mono (l : List (Option DLError)) (st : FetchState)
    (h : st.cancelled = true) : (l.foldl fetchStep st).cancelled = true := by
  induction l generalizing st with
  | nil => simpa using h
  | cons o rest ih =>
    rw [List.foldl_cons]
    apply ih
    cases o with
    | none => simpa using h
    | some e => rfl

/-- Any failure among the outcomes leaves the cancellation flag set. -/
theorem foldl_fetchStep_cancelled (l : List (Option DLError)) (st : FetchState)
    (h : l.filterMap id ≠ []) : (l.foldl fetchStep st).cancelled = true := by
  induction l generalizing st with
  | nil => simp at h
  | cons o rest ih =>
    cases o with
    | none =>
      rw [List.foldl_cons]
      exact ih st (by simpa [List.filterMap_cons] using h)
    | some e =>
      rw [List.foldl_cons]
      exact foldl_fetchStep_cancelled_mono rest _ rfl

/-- C9: with the chunked path entered, the first fetcher failure observed
occupies the error slot (a later failure is dropped by the `default:`
branch, without blocking), it triggers cancellation of the shared context,
and -- the fold having consumed the outcomes of *all* fetchers before the
slot is read, which is the `wg.Wait()` barrier -- it is exactly the error
`downloadFile` surfaces to the caller. -/
theorem C9_first_error (env : DownloadEnv) (sz : Int)
    (hurl : env.urlValid = true)
    (hprobe : checkRangeSupport env.headResp = .ok (true, sz))
    (hcreate : env.createTmpOk = true)
    (hfail : env.chunkOutcomes.filterMap id ≠ []) :
    (runFetchers env.chunkOutcomes).slot = (env.chunkOutcomes.filterMap id).head? ∧
    (runFetchers env.chunkOutcomes).cancelled = true ∧
    (downloadFile env).2 = (env.chunkOutcomes.filterMap id).head? := by
  have hslot : (runFetchers env.chunkOutcomes).slot
      = (env.chunkOutcomes.filterMap id).head? := by
    unfold runFetchers
    rw [foldl_fetchStep_slot]
  refine ⟨hslot, foldl_fetchStep_cancelled _ _ hfail, ?_⟩
  obtain ⟨e, t2, ht2⟩ : ∃ e t2, env.chunkOutcomes.filterMap id = e :: t2 := by
    cases hx : env.chunkOutcomes.filterMap id with
    | nil => exact absurd hx hfail
    | cons e t2 => exact ⟨e, t2, rfl⟩
  have hsome : (runFetchers env.chunkOutcomes).slot = some e := by
    rw [hslot, ht2]
    rfl
  unfold downloadFile
  rw [hurl, hprobe]
  simp only [Bool.true_eq_false, if_false, hcreate, hsome, ht2]
  rfl

/-- Environment used by the C9 witness: probe OK with ranges and size 100,
three fetchers finishing in the order success, failure A, failure B. -/
def envC9 : DownloadEnv :=
  { urlValid := true,
    headResp := .ok { statusCode := 200, acceptRanges := some "bytes".toList,
                      contentLengthHeader := some 100 },
    getResp := { statusCode := 200, body := [], readErr := none },
    createFinalOk := true, createTmpOk := true,
    chunkOutcomes := [none, some (.badChunkStatus 404), some (.badChunkStatus 500)],
    renameOk := true }

/-- C9 (witness): with two fetchers failing, the first failure observed
(the 404 one) is recorded, cancellation fires, and the 404 error -- not
the 500 one -- is surfaced by `downloadFile`. -/
theorem C9_first_error_witness :
    envC9.urlValid = true ∧
    checkRangeSupport envC9.headResp = .ok (true, 100) ∧
    envC9.createTmpOk = true ∧
    envC9.chunkOutcomes.filterMap id ≠ [] ∧
    ((runFetchers envC9.chunkOutcomes).slot = (envC9.chunkOutcomes.filterMap id).head? ∧
     (runFetchers envC9.chunkOutcomes).cancelled = true ∧
     (downloadFile envC9).2 = (envC9.chunkOutcomes.filterMap id).head?) :=
  ⟨rfl, rfl, rfl, by decide, C9_first_error envC9 100 rfl rfl rfl (by decide)⟩

/-! ## Claim C8: unconditional cleanup of the temporary artifact -/

/-- C8: once the chunked path has created `<output>.tmp`, every fatal
outcome -- any chunk failure, and a rename failure after all chunks
succeed -- removes the temporary artifact (the deferred `os.Remove`)
before the error is returned. -/
theorem C8_cleanup (env : DownloadEnv) (sz : Int)
    (hurl : env.urlValid = true)
    (hprobe : checkRangeSupport env.headResp = .ok (true, sz))
    (hcreate : env.createTmpOk = true)
    (hfatal : env.chunkOutcomes.filterMap id ≠ [] ∨ env.renameOk = false) :
    FsAction.removeTmp ∈ (downloadFile env).1 ∧ (downloadFile env).2.isSome = true := by
  unfold downloadFile
  rw [hurl, hprobe]
  simp only [Bool.true_eq_false, if_false, hcreate]
  have hslot : (runFetchers env.chunkOutcomes).slot
      = (env.chunkOutcomes.filterMap id).head? := by
    unfold runFetchers
    rw [foldl_fetchStep_slot]
  cases hx : env.chunkOutcomes.filterMap id with
  | cons e t2 =>
    have hsome : (runFetchers env.chunkOutcomes).slot = some e := by
      rw [hslot, hx]
      rfl
    rw [hsome]
    exact ⟨by simp, rfl⟩
  | nil =>
    have hnone : (runFetchers env.chunkOutcomes).slot = none := by
      rw [hslot, hx]
      rfl
    rw [hnone]
    have hren : env.renameOk = false := by
      rcases hfatal with h1 | h1
      · exact absurd hx h1
      · exact h1
    rw [hren]
    exact ⟨by simp, rfl⟩

/-- Environment used by the C8 witness: probe OK, one fetcher failing. -/
def envC8 : DownloadEnv :=
  { urlValid := true,
    headResp := .ok { statusCode := 200, acceptRanges := some "bytes".toList,
                      contentLengthHeader := some 50 },
    getResp := { statusCode := 200, body := [], readErr := none },
    createFinalOk := true, createTmpOk := true,
    chunkOutcomes := [some (.badChunkStatus 403), none],
    renameOk := true }

/-- C8 (witness): with one chunk failing, the temporary artifact is removed
and an error is surfaced. -/
theorem C8_cleanup_witness :
    envC8.urlValid = true ∧
    checkRangeSupport envC8.headResp = .ok (true, 50) ∧
    envC8.createTmpOk = true ∧
    (envC8.chunkOutcomes.filterMap id ≠ [] ∨ envC8.renameOk = false) ∧
    (FsAction.removeTmp ∈ (downloadFile envC8).1 ∧ (downloadFile envC8).2.isSome = true) :=
  ⟨rfl, rfl, rfl, Or.inl (by decide), C8_cleanup envC8 50 rfl rfl rfl (Or.inl (by decide))⟩

/-! ## The chunk write loop: offsets and progress accounting -/

/-- Unfolding lemma for `totalLen`. -/
theorem totalLen_cons (d : List UInt8) (rest : List (List UInt8)) :
    totalLen (d :: rest) = (d.length : Int) + totalLen rest :=
  rfl

/-- Unfolding lemma for `sumLens`. -/
theorem sumLens_cons (w : WriteOp) (ws : List WriteOp) :
    sumLens (w :: ws) = (w.data.length : Int) + sumLens ws :=
  rfl

/-- Body increments have nonnegative total length. -/
theorem totalLen_nonneg (incs : List (List UInt8)) : 0 ≤ totalLen incs := by
  induction incs with
  | nil => simp [totalLen]
  | cons d rest ih =>
    rw [totalLen_cons]
    have : (0 : Int) ≤ (d.length : Int) := Int.ofNat_nonneg _
    omega

/-- Every write the loop performs starts at or after the running offset and
ends within the total body length past it. -/
theorem chunkLoop_writes_bounds (incs : List (List UInt8)) :
    ∀ (cur d0 : Int), ∀ w ∈ (chunkLoop cur d0 incs).map Prod.fst,
      cur ≤ w.offset ∧ w.offset + (w.data.length : Int) ≤ cur + totalLen incs := by
  induction incs with
  | nil =>
    intro cur d0 w hw
    simp [chunkLoop] at hw
  | cons d rest ih =>
    intro cur d0 w hw
    rw [totalLen_cons]
    have hrest := totalLen_nonneg rest
    by_cases hd : 0 < d.length
    · simp only [chunkLoop, if_pos hd, List.map_cons, List.mem_cons] at hw
      rcases hw with h1 | h2
      · subst h1
        constructor
        · exact le_refl _
        · simp only []
          omega
      · have hb := ih (cur + (d.length : Int)) (d0 + (d.length : Int)) w h2
        have hdn : (0 : Int) ≤ (d.length : Int) := Int.ofNat_nonneg _
        omega
    · simp only [chunkLoop, if_neg hd] at hw
      have hb := ih cur d0 w hw
      have hdz : d.length = 0 := Nat.eq_zero_of_not_pos hd
      rw [hdz]
      omega

/-- Unfolding lemma for `chunkLoop` on a nonempty increment. -/
theorem chunkLoop_cons_pos (cur d0 : Int) (d : List UInt8) (rest : List (List UInt8))
    (hd : 0 < d.length) :
    chunkLoop cur d0 (d :: rest) =
      ({ offset := cur, data := d }, d0 + (d.length : Int)) ::
        chunkLoop (cur + (d.length : Int)) (d0 + (d.length : Int)) rest := by
  simp [chunkLoop, hd]

/-- Unfolding lemma for `chunkLoop` on an empty increment (skipped by the
`if n > 0` guard). -/
theorem chunkLoop_cons_zero (cur d0 : Int) (d : List UInt8) (rest : List (List UInt8))
    (hd : ¬ 0 < d.length) :
    chunkLoop cur d0 (d :: rest) = chunkLoop cur d0 rest := by
  simp [chunkLoop, hd]

/-- Decomposition contract of the write loop: the entry after any prefix
`pre` of the trace is written at the running offset plus the bytes of
`pre`, and the shared counter just after it equals its start value plus
the bytes written through that entry. -/
theorem chunkLoop_split (incs : List (List UInt8)) :
    ∀ (cur d0 : Int) (pre : List (WriteOp × Int)) (entry : WriteOp × Int)
      (post : List (WriteOp × Int)),
      chunkLoop cur d0 incs = pre ++ entry :: post →
      entry.1.offset = cur + sumLens (pre.map Prod.fst) ∧
      entry.2 = d0 + sumLens (pre.map Prod.fst) + (entry.1.data.length : Int) := by
  induction incs with
  | nil =>
    intro cur d0 pre entry post h
    simp [chunkLoop] at h
  | cons d rest ih =>
    intro cur d0 pre entry post h
    by_cases hd : 0 < d.length
    · rw [chunkLoop_cons_pos cur d0 d rest hd] at h
      cases pre with
      | nil =>
        simp only [List.nil_append, List.cons.injEq] at h
        rw [← h.1]
        simp [sumLens]
      | cons p ptail =>
        simp only [List.cons_append, List.cons.injEq] at h
        have hrec := ih (cur + (d.length : Int)) (d0 + (d.length : Int)) ptail entry post h.2
        rw [← h.1]
        simp only [List.map_cons, sumLens_cons]
        constructor
        · rw [hrec.1]
          ring
        · rw [hrec.2]
          ring
    · rw [chunkLoop_cons_zero cur d0 d rest hd] at h
      exact ih cur d0 pre entry post h

/-- All writes of a chunk fetch stay within `[c.Start, c.End]`. -/
def WritesWithinSpan (c : Chunk) (ws : List WriteOp) : Prop :=
  ∀ w ∈ ws, ∀ o : Int,
    w.offset ≤ o → o < w.offset + (w.data.length : Int) → c.Start ≤ o ∧ o ≤ c.End

/-- C6 (counterexample): the claim quantifies over every response body, but
the loop never bounds `current` by `chunk.End`.  For the one-byte chunk
`[0, 0]` and a 206 response whose body delivers two bytes, the single
write covers offset 1, outside the chunk's span. -/
theorem C6_counterexample :
    ¬ WritesWithinSpan { Start := 0, End := 0 }
        (writesOf (downloadChunk { Start := 0, End := 0 } 0
          { statusCode := 206, body := [[0, 0]], readErr := none })) := by
  intro h
  have hm : ({ offset := 0, data := [0, 0] } : WriteOp) ∈
      writesOf (downloadChunk { Start := 0, End := 0 } 0
        { statusCode := 206, body := [[0, 0]], readErr := none }) := by
    decide
  have hco := h _ hm 1 (by decide) (by decide)
  exact absurd hco.2 (by decide)

/-- C6 (amended): provided the server honours the range -- the response body
totals at most `End - Start + 1` bytes -- every byte written by the
chunk's fetcher lands within the chunk's own span `[Start, End]`, so
concurrent fetchers write only to disjoint regions. -/
theorem C6_within_span (c : Chunk) (d0 : Int) (r : ChunkResponse)
    (hlen : totalLen r.body ≤ c.End - c.Start + 1) :
    WritesWithinSpan c (writesOf (downloadChunk c d0 r)) := by
  intro w hw o h1 h2
  unfold downloadChunk writesOf at hw
  by_cases hs : r.statusCode ≠ 206
  · rw [if_pos hs] at hw
    simp at hw
  · rw [if_neg hs] at hw
    have hb := chunkLoop_writes_bounds r.body c.Start d0 w hw
    omega

/-- Chunk response used by the C6 witness: three bytes for a five-byte span. -/
def respC6 : ChunkResponse :=
  { statusCode := 206, body := [[1, 2], [3]], readErr := none }

/-- C6 (witness): a conforming two-increment body for the chunk `[0, 4]`
keeps every written offset inside the span. -/
theorem C6_within_span_witness :
    totalLen respC6.body
        ≤ ({ Start := 0, End := 4 } : Chunk).End - ({ Start := 0, End := 4 } : Chunk).Start + 1 ∧
    WritesWithinSpan { Start := 0, End := 4 }
      (writesOf (downloadChunk { Start := 0, End := 4 } 0 respC6)) :=
  ⟨by decide, C6_within_span { Start := 0, End := 4 } 0 respC6 (by decide)⟩

/-- Offset/progress contract of one `downloadChunk` run: however the trace
is decomposed into earlier writes `pre`, one entry, and later writes, the
entry's write lands at `chunk.Start` plus the bytes of the earlier writes,
and the shared counter just after it has grown by exactly that write's
size. -/
def ChunkTraceOk (c : Chunk) (downloaded0 : Int) (r : ChunkResponse) : Prop :=
  ∀ (pre : List (WriteOp × Int)) (entry : WriteOp × Int) (post : List (WriteOp × Int)),
    (downloadChunk c downloaded0 r).1 = pre ++ entry :: post →
    entry.1.offset = c.Start + sumLens (pre.map Prod.fst) ∧
    entry.2 = downloaded0 + sumLens (pre.map Prod.fst) + (entry.1.data.length : Int)

/-- C7: throughout `downloadChunk`'s read loop, each increment of `n` bytes
is written at absolute offset `chunk.Start +` (bytes already written for
this chunk), and after each successful write the shared counter has been
increased by exactly `n`. -/
theorem C7_offsets (c : Chunk) (d0 : Int) (r : ChunkResponse) : ChunkTraceOk c d0 r := by
  intro pre entry post h
  unfold downloadChunk at h
  by_cases hs : r.statusCode ≠ 206
  · rw [if_pos hs] at h
    simp at h
  · rw [if_neg hs] at h
    exact chunkLoop_split r.body c.Start d0 pre entry post h

/-! ## Claim C1: the chunk plan partitions `[0, totalSize - 1]` -/

/-- Closed form of a planned chunk's `Start`: `i * chunkSize`. -/
def chunkStartAt (s : Int) (i : Nat) : Int :=
  (i : Int) * s

/-- Closed form of a planned chunk's `End`: `i*chunkSize + chunkSize - 1`,
except the last chunk, whose end is forced to `fileSize - 1`. -/
def chunkEndAt (conc : Nat) (s t : Int) (i : Nat) : Int :=
  if i = conc - 1 then t - 1 else (i : Int) * s + s - 1

/-- Closed form of the `i`-th planned chunk. -/
def chunkAt (conc : Nat) (s t : Int) (i : Nat) : Chunk :=
  { Start := chunkStartAt s i, End := chunkEndAt conc s t i }

/-- Applying `setLastEnd` to a list with an exposed last element patches exactly it. -/
theorem setLastEnd_append_single (xs : List Chunk) (x : Chunk) (e : Int) :
    setLastEnd (xs ++ [x]) e = xs ++ [{ x with End := e }] := by
  induction xs with
  | nil => rfl
  | cons c rest ih =>
    cases rest with
    | nil => simp [setLastEnd]
    | cons c2 r2 =>
      simp only [List.cons_append] at ih ⊢
      rw [setLastEnd, ih]

/-- Applying `setLastEnd` over a mapped range patches only the image of `n - 1`. -/
theorem setLastEnd_map_range (n : Nat) (f : Nat → Chunk) (e : Int) :
    setLastEnd ((List.range n).map f) e
      = (List.range n).map (fun i => if i = n - 1 then { f i with End := e } else f i) := by
  cases n with
  | zero => rfl
  | succ m =>
    rw [List.range_succ, List.map_append, List.map_append, List.map_singleton,
        List.map_singleton, setLastEnd_append_single]
    congr 1
    · apply List.map_congr_left
      intro i hi
      have him : i < m := List.mem_range.mp hi
      rw [if_neg (by omega)]
    · simp

/-- The plan in closed form: chunk `i` is `chunkAt concurrency chunkSize t i`. -/
theorem planChunks_eq (t : Int) :
    planChunks t = (List.range (calculateConcurrency t)).map
      (chunkAt (calculateConcurrency t) (goDiv t ((calculateConcurrency t : Nat) : Int)) t) := by
  unfold planChunks mkChunks
  rw [setLastEnd_map_range]
  apply List.map_congr_left
  intro i hi
  unfold chunkAt chunkStartAt chunkEndAt
  by_cases hie : i = calculateConcurrency t - 1
  · rw [if_pos hie, if_pos hie]
  · rw [if_neg hie, if_neg hie]

/-- The plan always has exactly `calculateConcurrency t` chunks. -/
theorem planChunks_length (t : Int) : (planChunks t).length = calculateConcurrency t := by
  rw [planChunks_eq]
  simp

/-- Element access of the plan in closed form. -/
theorem planChunks_get (t : Int) (i : Nat) (h : i < (planChunks t).length) :
    (planChunks t).get ⟨i, h⟩
      = chunkAt (calculateConcurrency t) (goDiv t ((calculateConcurrency t : Nat) : Int)) t i := by
  simp only [planChunks_eq, List.get_eq_getElem, List.getElem_map, List.getElem_range]

/-- The size policy always picks a positive worker count. -/
theorem calculateConcurrency_pos (t : Int) : 0 < calculateConcurrency t := by
  unfold calculateConcurrency
  split <;> norm_num

/-- Go's truncated division agrees with Euclidean division on nonnegative
operands. -/
theorem goDiv_eq_ediv (a b : Int) (ha : 0 ≤ a) (hb : 0 ≤ b) : goDiv a b = a / b :=
  Int.tdiv_eq_ediv ha hb

/-- The chunk size is nonnegative for a nonnegative file size. -/
theorem goDiv_nonneg (a b : Int) (ha : 0 ≤ a) (hb : 0 ≤ b) : 0 ≤ goDiv a b := by
  rw [goDiv_eq_ediv a b ha hb]
  exact Int.ediv_nonneg ha hb

/-- Bound `concurrency * chunkSize ≤ fileSize`. -/
theorem mul_goDiv_le (t : Int) (c : Nat) (ht : 0 ≤ t) (hc : 0 < c) :
    (c : Int) * goDiv t (c : Int) ≤ t := by
  rw [goDiv_eq_ediv t c ht (by positivity), mul_comm]
  exact Int.ediv_mul_le t (by exact_mod_cast hc.ne')

/-- C1 property bundle for the plan of file size `t`: the worker count
follows the size policy; the chunks are contiguous (`Start` of each
successor is the predecessor's `End + 1`), pairwise non-overlapping
(earlier chunks end strictly before later ones start), start at 0, end at
`t - 1`, and their spans cover exactly the bytes `0 … t - 1`. -/
def PlanOk (t : Int) : Prop :=
  (calculateConcurrency t = if 1024 * 1024 * 1024 < t then 8 else 4) ∧
  (planChunks t).length = calculateConcurrency t ∧
  (∀ h : 0 < (planChunks t).length, ((planChunks t).get ⟨0, h⟩).Start = 0) ∧
  (∀ (i : Nat) (h : i + 1 < (planChunks t).length),
    ((planChunks t).get ⟨i + 1, h⟩).Start
      = ((planChunks t).get ⟨i, Nat.lt_of_succ_lt h⟩).End + 1) ∧
  (∀ (i j : Nat) (hi : i < (planChunks t).length) (hj : j < (planChunks t).length),
    i < j → ((planChunks t).get ⟨i, hi⟩).End < ((planChunks t).get ⟨j, hj⟩).Start) ∧
  (∀ h : planChunks t ≠ [], ((planChunks t).getLast h).End = t - 1) ∧
  (∀ b : Int, (0 ≤ b ∧ b ≤ t - 1) ↔
    ∃ (i : Nat) (h : i < (planChunks t).length),
      ((planChunks t).get ⟨i, h⟩).Start ≤ b ∧ b ≤ ((planChunks t).get ⟨i, h⟩).End)

/-- C1: for every `totalSize > 0`, with concurrency chosen by the size
policy (8 above 1 GiB, else 4), the chunk list built by the coordinator is
contiguous, non-overlapping, covers exactly `[0, totalSize - 1]`, and its
last chunk's `End` equals `totalSize - 1`. -/
theorem C1_plan (t : Int) (ht : 0 < t) : PlanOk t := by
  have hc : 0 < calculateConcurrency t := calculateConcurrency_pos t
  set c := calculateConcurrency t with hcdef
  set s := goDiv t ((c : Nat) : Int) with hsdef
  have hs0 : 0 ≤ s := goDiv_nonneg t c ht.le (by positivity)
  have hcs : (c : Int) * s ≤ t := mul_goDiv_le t c ht.le hc
  have hlen : (planChunks t).length = c := planChunks_length t
  have hget : ∀ (i : Nat) (h : i < (planChunks t).length),
      (planChunks t).get ⟨i, h⟩ = chunkAt c s t i := fun i h => planChunks_get t i h
  refine ⟨rfl, hlen, ?_, ?_, ?_, ?_, ?_⟩
  · intro h
    rw [hget 0 h]
    unfold chunkAt chunkStartAt
    simp
  · intro i h
    rw [hget (i + 1) h, hget i (Nat.lt_of_succ_lt h)]
    have hi1 : i + 1 < c := by rw [hlen] at h; exact h
    have hine : i ≠ c - 1 := by omega
    unfold chunkAt chunkStartAt chunkEndAt
    rw [if_neg hine]
    push_cast
    ring
  · intro i j hi hj hij
    rw [hget i hi, hget j hj]
    have hjc : j < c := by rw [hlen] at hj; exact hj
    have hine : i ≠ c - 1 := by omega
    have hkey : ((i : Int) + 1) * s ≤ (j : Int) * s := by
      apply mul_le_mul_of_nonneg_right _ hs0
      omega
    have hkey2 : (i : Int) * s + s ≤ (j : Int) * s := by nlinarith
    unfold chunkAt chunkStartAt chunkEndAt
    rw [if_neg hine]
    show (i : Int) * s + s - 1 < (j : Int) * s
    linarith
  · intro h
    have hpos : 0 < (planChunks t).length := List.length_pos.mpr h
    rw [List.getLast_eq_get, hget ((planChunks t).length - 1) (by omega)]
    unfold chunkAt chunkEndAt
    rw [hlen, if_pos rfl]
  · intro b
    constructor
    · rintro ⟨hb0, hbt⟩
      by_cases hbig : ((c : Int) - 1) * s ≤ b
      · have hib : c - 1 < (planChunks t).length := by rw [hlen]; omega
        refine ⟨c - 1, hib, ?_, ?_⟩
        · rw [hget (c - 1) hib]
          unfold chunkAt chunkStartAt
          show ((c - 1 : Nat) : Int) * s ≤ b
          have hcast : ((c - 1 : Nat) : Int) = (c : Int) - 1 := by
            push_cast [hc]
            ring
          rw [hcast]
          exact hbig
        · rw [hget (c - 1) hib]
          unfold chunkAt chunkEndAt
          rw [if_pos rfl]
          exact hbt
      · push_neg at hbig
        have hspos : 0 < s := by
          by_contra hns
          push_neg at hns
          have hle : ((c : Int) - 1) * s ≤ 0 :=
            mul_nonpos_of_nonneg_of_nonpos (by omega) hns
          linarith
        have hdm := Int.ediv_add_emod b s
        have hrem0 : 0 ≤ b % s := Int.emod_nonneg b (ne_of_gt hspos)
        have hrem1 : b % s < s := Int.emod_lt_of_pos b hspos
        have hq0 : 0 ≤ b / s := Int.ediv_nonneg hb0 hs0
        have hql : (b / s) * s ≤ b := by nlinarith [hdm]
        have hqu : b < (b / s) * s + s := by nlinarith [hdm]
        have hqc : b / s < (c : Int) - 1 := by
          by_contra hge
          push_neg at hge
          have : ((c : Int) - 1) * s ≤ (b / s) * s :=
            mul_le_mul_of_nonneg_right hge hs0
          linarith
        have hqt : (((b / s).toNat : Nat) : Int) = b / s := Int.toNat_of_nonneg hq0
        have hib : (b / s).toNat < (planChunks t).length := by
          rw [hlen]
          omega
        refine ⟨(b / s).toNat, hib, ?_, ?_⟩
        · rw [hget _ hib]
          unfold chunkAt chunkStartAt
          show (((b / s).toNat : Nat) : Int) * s ≤ b
          rw [hqt]
          exact hql
        · rw [hget _ hib]
          unfold chunkAt chunkEndAt
          rw [if_neg (by omega)]
          show b ≤ (((b / s).toNat : Nat) : Int) * s + s - 1
          rw [hqt]
          omega
    · rintro ⟨i, hih, hst, hend⟩
      rw [hget i hih] at hst hend
      have hic : i < c := by rw [hlen] at hih; exact hih
      unfold chunkAt chunkStartAt chunkEndAt at hst hend
      have hst2 : (i : Int) * s ≤ b := hst
      have his0 : (0 : Int) ≤ (i : Int) * s := mul_nonneg (by positivity) hs0
      refine ⟨by linarith, ?_⟩
      by_cases hie : i = c - 1
      · rw [if_pos hie] at hend
        exact hend
      · rw [if_neg hie] at hend
        have hend2 : b ≤ (i : Int) * s + s - 1 := hend
        have hup : ((i : Int) + 1) * s ≤ (c : Int) * s := by
          apply mul_le_mul_of_nonneg_right _ hs0
          omega
        nlinarith [hup, hcs, hend2]

/-- C1 (witness): the plan for `totalSize = 100` (concurrency 4, chunks
ending at 24, 49, 74, 99) satisfies the whole bundle. -/
theorem C1_plan_witness : (0 : Int) < 100 ∧ PlanOk 100 :=
  ⟨by decide, C1_plan 100 (by decide)⟩

end GoWget
